import Mathlib

/-!
# Verification of the TechNova assistant function router (`main.py`)

Shallow embedding of the single-file FastAPI service that maps a
natural-language query to a function-call descriptor via an ordered list
of regular-expression rules plus a fallback.

Characters are modelled as Lean `Char`; strings as `List Char`.  The six
regular expressions of the source use only: case-insensitive literals,
the classes `\d`, `\s`, `.` (no DOTALL), the quantifiers `+`, `+?`,
`{n}`, `{1,2}`, a non-capturing optional alternation of literals, the
word boundary `\b`, and the end anchor `$`.  The matcher below
implements exactly these constructs with Python `re` backtracking
semantics: `search` tries start positions left to right, and at a given
start the list of candidate continuations is produced in Python's
preference order (greedy = longest first, lazy = shortest first,
alternatives in written order, optional = present before absent).
Character classes are modelled over ASCII; Python's `\d`, `\s`, `\w`
additionally cover non-ASCII Unicode codepoints, which no claim here
depends on (the only integer parser applied to captured text accepts
exactly the ASCII digit strings that `\d+` captures).
-/

deriving instance DecidableEq for Except

namespace TechNova

/-- ASCII decimal digit, the model of `\d` and `[0-9]`. -/
def isDigitChar (c : Char) : Bool := 48 ≤ c.toNat && c.toNat ≤ 57

/-- ASCII whitespace, the model of `\s` (space, TAB, LF, VT, FF, CR). -/
def isSpaceChar (c : Char) : Bool :=
  c.toNat == 32 || c.toNat == 9 || c.toNat == 10 || c.toNat == 11 ||
  c.toNat == 12 || c.toNat == 13

/-- ASCII word character, the model of `\w` used by the `\b` assertion. -/
def isWordChar (c : Char) : Bool :=
  c.isAlpha || isDigitChar c || c == '_'

/-- Case-insensitive character comparison (`re.IGNORECASE`). -/
def lowerEq (a b : Char) : Bool := a.toLower == b.toLower

/-- The character classes occurring in the source's patterns. -/
inductive CClass where
  | digit
  | space
  | dot
  deriving DecidableEq, Repr

def charInClass : CClass → Char → Bool
  | .digit, c => isDigitChar c
  | .space, c => isSpaceChar c
  | .dot, c => c != '\n'

/-- One quantified unit inside a pattern. -/
inductive Atom where
  /-- a case-insensitive literal run of characters -/
  | lit (t : List Char)
  /-- `{n}`: exactly `n` characters of a class -/
  | rep (c : CClass) (n : Nat)
  /-- `{1,2}` (greedy) -/
  | rep12 (c : CClass)
  /-- `+` (greedy) -/
  | plus (c : CClass)
  /-- `+?` (lazy) -/
  | plusLazy (c : CClass)
  deriving DecidableEq, Repr

/-- A top-level pattern element. -/
inductive Item where
  | atom (a : Atom)
  /-- a capturing group around a sequence of atoms -/
  | group (as : List Atom)
  /-- `(?:t₁|t₂|…)?`: greedy optional alternation of literals -/
  | optAlt (alts : List (List Char))
  /-- `\b` -/
  | wb
  /-- `$` (no MULTILINE) -/
  | eos
  deriving DecidableEq, Repr

/-- Does the case-insensitive literal `t` start the list `l`? -/
def litPrefix : List Char → List Char → Bool
  | [], _ => true
  | _ :: _, [] => false
  | c :: t, d :: l => lowerEq c d && litPrefix t l

/-- `litAt t s i`: the literal `t` matches in `s` at index `i`. -/
def litAt (t s : List Char) (i : Nat) : Bool := litPrefix t (s.drop i)

/-- Length of the maximal run of class-`c` characters in `s` starting at `i`. -/
def runLen (c : CClass) (s : List Char) (i : Nat) : Nat :=
  ((s.drop i).takeWhile (charInClass c)).length

/-- All end positions a single atom can reach from `i`, in Python's
backtracking preference order. -/
def matchAtom (a : Atom) (s : List Char) (i : Nat) : List Nat :=
  match a with
  | .lit t => if litAt t s i then [i + t.length] else []
  | .rep c n => if n ≤ runLen c s i then [i + n] else []
  | .rep12 c =>
      (if 2 ≤ runLen c s i then [i + 2] else []) ++
      (if 1 ≤ runLen c s i then [i + 1] else [])
  | .plus c => (List.range (runLen c s i)).map (fun k => i + (runLen c s i - k))
  | .plusLazy c => (List.range (runLen c s i)).map (fun k => i + (k + 1))

/-- End positions reachable by a sequence of atoms, preference order. -/
def matchAtoms (as : List Atom) (s : List Char) (i : Nat) : List Nat :=
  match as with
  | [] => [i]
  | a :: rest => (matchAtom a s i).flatMap (fun j => matchAtoms rest s j)

def wordAt (s : List Char) (j : Nat) : Bool :=
  match s.get? j with
  | some c => isWordChar c
  | none => false

/-- The `\b` assertion at index `i`. -/
def isBoundary (s : List Char) (i : Nat) : Bool :=
  (if i = 0 then false else wordAt s (i - 1)) != wordAt s i

/-- The `$` assertion (end of string, or just before a final newline). -/
def atEos (s : List Char) (i : Nat) : Bool :=
  i == s.length || (i + 1 == s.length && s.get? i == some '\n')

/-- All matches of an item sequence at position `i`: pairs of an end
position and a list of capture spans `(start, stop)` in group order,
in Python's backtracking preference order. -/
def matchItems (items : List Item) (s : List Char) (i : Nat) :
    List (Nat × List (Nat × Nat)) :=
  match items with
  | [] => [(i, [])]
  | .atom a :: rest => (matchAtom a s i).flatMap (fun j => matchItems rest s j)
  | .group as :: rest =>
      (matchAtoms as s i).flatMap
        (fun j => (matchItems rest s j).map (fun r => (r.1, (i, j) :: r.2)))
  | .optAlt alts :: rest =>
      ((alts.filterMap (fun t => if litAt t s i then some (i + t.length) else none))
          ++ [i]).flatMap
        (fun j => matchItems rest s j)
  | .wb :: rest => if isBoundary s i then matchItems rest s i else []
  | .eos :: rest => if atEos s i then matchItems rest s i else []

/-- `re.search` semantics: leftmost starting position wins; at that
position the backtracking-preferred match wins.  Returns the capture
spans of the match (the source only ever uses `m.groups()`/`m.group(1)`). -/
def searchRE (items : List Item) (s : List Char) : Option (List (Nat × Nat)) :=
  (List.range (s.length + 1)).findSome?
    (fun i => (matchItems items s i).head?.map (fun r => r.2))

/-- Text of a capture span, `s[a:b]`. -/
def captureText (s : List Char) (sp : Nat × Nat) : List Char :=
  (s.drop sp.1).take (sp.2 - sp.1)

/-! ## The rule table (`PATTERNS` in `main.py`) -/

/-- Kinds of a rule's parameters (`arg_types`: `int` / `str`). -/
inductive ArgType where
  | int
  | str
  deriving DecidableEq, Repr

/-- One entry of `PATTERNS`. -/
structure Rule where
  name : String
  pattern : List Item
  arg_keys : List String
  arg_types : List ArgType
  deriving DecidableEq, Repr

/-- `r"\bstatus of ticket\s+(\d+)\b"` -/
def ticketRule : Rule where
  name := "get_ticket_status"
  pattern := [.wb, .atom (.lit "status of ticket".data), .atom (.plus .space),
    .group [.plus .digit], .wb]
  arg_keys := ["ticket_id"]
  arg_types := [.int]

/-- `r"\bschedule a meeting on\s+([0-9]{4}-[0-9]{2}-[0-9]{2})\s+at\s+([0-9]{1,2}:[0-9]{2})\s+in\s+(.+)$"` -/
def meetingRule : Rule where
  name := "schedule_meeting"
  pattern := [.wb, .atom (.lit "schedule a meeting on".data), .atom (.plus .space),
    .group [.rep .digit 4, .lit "-".data, .rep .digit 2, .lit "-".data, .rep .digit 2],
    .atom (.plus .space), .atom (.lit "at".data), .atom (.plus .space),
    .group [.rep12 .digit, .lit ":".data, .rep .digit 2],
    .atom (.plus .space), .atom (.lit "in".data), .atom (.plus .space),
    .group [.plus .dot], .eos]
  arg_keys := ["date", "time", "meeting_room"]
  arg_types := [.str, .str, .str]

/-- `r"\bexpense balance for employee\s+(\d+)\b"` -/
def expenseRule : Rule where
  name := "get_expense_balance"
  pattern := [.wb, .atom (.lit "expense balance for employee".data),
    .atom (.plus .space), .group [.plus .digit], .wb]
  arg_keys := ["employee_id"]
  arg_types := [.int]

/-- `r"\bperformance bonus for employee\s+(\d+)\s+for\s+(\d{4})\b"` -/
def bonusRule : Rule where
  name := "calculate_performance_bonus"
  pattern := [.wb, .atom (.lit "performance bonus for employee".data),
    .atom (.plus .space), .group [.plus .digit], .atom (.plus .space),
    .atom (.lit "for".data), .atom (.plus .space), .group [.rep .digit 4], .wb]
  arg_keys := ["employee_id", "current_year"]
  arg_types := [.int, .int]

/-- `r"\breport (?:an |the )?office issue\s+(\d+)\s+for the\s+(.+?)\s+department\b"` -/
def issueRule : Rule where
  name := "report_office_issue"
  pattern := [.wb, .atom (.lit "report ".data), .optAlt ["an ".data, "the ".data],
    .atom (.lit "office issue".data), .atom (.plus .space), .group [.plus .digit],
    .atom (.plus .space), .atom (.lit "for the".data), .atom (.plus .space),
    .group [.plusLazy .dot], .atom (.plus .space), .atom (.lit "department".data),
    .wb]
  arg_keys := ["issue_code", "department"]
  arg_types := [.int, .str]

/-- The ordered rule table. -/
def PATTERNS : List Rule := [ticketRule, meetingRule, expenseRule, bonusRule, issueRule]

/-- The fallback pattern `r"ticket\s+(\d+)"`. -/
def fallbackItems : List Item :=
  [.atom (.lit "ticket".data), .atom (.plus .space), .group [.plus .digit]]

/-! ## String utilities mirroring Python -/

/-- Python `str.strip()` (over the ASCII whitespace modelled here). -/
def pyStrip (s : List Char) : List Char :=
  ((s.dropWhile isSpaceChar).reverse.dropWhile isSpaceChar).reverse

/-- Value of an ASCII digit character. -/
def digitVal (c : Char) : Nat := c.toNat - 48

/-- Parse a nonempty all-digit string (helper for `pythonInt?`). -/
def parseDigits? (l : List Char) : Option Nat :=
  if l ≠ [] ∧ l.all isDigitChar then
    some (l.foldl (fun a c => a * 10 + digitVal c) 0)
  else none

/-- Sign handling of `int()` on an already-stripped string. -/
def pythonIntCore : List Char → Option Int
  | [] => none
  | c :: rest =>
    if c = '+' then (parseDigits? rest).map Int.ofNat
    else if c = '-' then (parseDigits? rest).map (fun n => -(Int.ofNat n))
    else (parseDigits? (c :: rest)).map Int.ofNat

/-- Python `int(text)`: surrounding whitespace stripped, optional sign,
then a nonempty run of decimal digits.  (Python additionally accepts
underscore digit separators and non-ASCII decimal digits; neither can
reach this parser, whose inputs are captures of `\d+` / `\d{4}`.) -/
def pythonInt? (s : List Char) : Option Int := pythonIntCore (pyStrip s)

/-! ## Argument coercion and the route computation -/

/-- A coerced argument value. -/
inductive Value where
  | int (n : Int)
  | str (s : List Char)
  deriving DecidableEq, Repr

/-- The error taxonomy of the endpoint. `uncaughtValueError` models a
`ValueError`/`IndexError` escaping the handler (no `try` around the
fallback's `int(...)` / `group(1)`); it is proved unreachable. -/
inductive RouteError where
  | emptyInput
  | noRuleMatched
  | invalidArgument (p : String)
  | internalPatternError
  | uncaughtValueError
  deriving DecidableEq, Repr

/-- The body of the per-capture loop: coerce one captured text by the
declared kind (`int(val)` under `try`, or `val.strip()`). -/
def coerceOne (ty : ArgType) (key : String) (txt : List Char) :
    Except RouteError Value :=
  match ty with
  | .int =>
    match pythonInt? txt with
    | some n => .ok (.int n)
    | none => .error (.invalidArgument key)
  | .str => .ok (.str (pyStrip txt))

/-- The `for key, typ, val in zip(...)` loop building the ordered args. -/
def coerceAll : List (String × ArgType × List Char) →
    Except RouteError (List (String × Value))
  | [] => .ok []
  | (k, ty, txt) :: rest => do
    let v ← coerceOne ty k txt
    let vs ← coerceAll rest
    .ok ((k, v) :: vs)

/-- The `for p in PATTERNS: m = p["pattern"].search(text)` loop:
first rule whose pattern matches, with its capture spans. -/
def firstRuleMatch : List Rule → List Char → Option (Rule × List (Nat × Nat))
  | [], _ => none
  | R :: rs, s =>
    match searchRE R.pattern s with
    | some caps => some (R, caps)
    | none => firstRuleMatch rs s

/-- The routing core of `execute`, applied to the stripped query text:
everything between `text = q.strip()` and serialization. -/
def routeCore (text : List Char) :
    Except RouteError (String × List (String × Value)) :=
  match firstRuleMatch PATTERNS text with
  | some (R, caps) =>
    if caps.length ≠ R.arg_keys.length then .error .internalPatternError
    else
      (coerceAll (R.arg_keys.zip (R.arg_types.zip (caps.map (captureText text))))).map
        (fun kvs => (R.name, kvs))
  | none =>
    match searchRE fallbackItems text with
    | some caps =>
      match caps.head? with
      | some sp =>
        match pythonInt? (captureText text sp) with
        | some n => .ok ("get_ticket_status", [("ticket_id", Value.int n)])
        | none => .error .uncaughtValueError
      | none => .error .uncaughtValueError
    | none => .error .noRuleMatched

/-! ## JSON serialization (`json.dumps(..., ensure_ascii=False)`) -/

def lbrace : Char := Char.ofNat 123
def rbrace : Char := Char.ofNat 125

def hexDigit (n : Nat) : Char :=
  if n < 10 then Char.ofNat (48 + n) else Char.ofNat (87 + n)

/-- Encoding of one character inside a JSON string, as produced by
`json.dumps` with `ensure_ascii=False`: escape `\` and `"`, shortcut
escapes for BS/TAB/LF/FF/CR, `\u00xx` for the other control
characters, everything else (non-ASCII included) literal. -/
def escChar (c : Char) : List Char :=
  if c = '\\' then ['\\', '\\']
  else if c = '"' then ['\\', '"']
  else if c.toNat < 32 then
    if c = Char.ofNat 8 then ['\\', 'b']
    else if c = Char.ofNat 9 then ['\\', 't']
    else if c = Char.ofNat 10 then ['\\', 'n']
    else if c = Char.ofNat 12 then ['\\', 'f']
    else if c = Char.ofNat 13 then ['\\', 'r']
    else ['\\', 'u', '0', '0', hexDigit (c.toNat / 16), hexDigit (c.toNat % 16)]
  else [c]

def escChars (l : List Char) : List Char := l.flatMap escChar

/-- Decimal digits of a natural number, with structural fuel
(`fuel = n + 1` always suffices, since `n / 10 < n` for `10 ≤ n`). -/
def natDigitsAux : Nat → Nat → List Char
  | 0, _ => []
  | fuel + 1, n =>
    if n < 10 then [Char.ofNat (48 + n)]
    else natDigitsAux fuel (n / 10) ++ [Char.ofNat (48 + n % 10)]

/-- Decimal digits of a natural number (`str(int)`). -/
def natDigits (n : Nat) : List Char := natDigitsAux (n + 1) n

/-- Decimal representation of an integer (`str(int)` / JSON number). -/
def intRepr (n : Int) : List Char :=
  if n < 0 then '-' :: natDigits n.natAbs else natDigits n.toNat

/-- JSON encoding of one value. -/
def dumpVal : Value → List Char
  | .int n => intRepr n
  | .str v => '"' :: (escChars v ++ ['"'])

/-- JSON encoding of one `"key": value` member. -/
def dumpPair (kv : String × Value) : List Char :=
  '"' :: (escChars kv.1.data ++ '"' :: ':' :: ' ' :: dumpVal kv.2)

/-- `", "`-separated concatenation (`json.dumps` default separators). -/
def joinComma : List (List Char) → List Char
  | [] => []
  | [x] => x
  | x :: xs => x ++ ',' :: ' ' :: joinComma xs

/-- `json.dumps` of an insertion-ordered string-keyed object. -/
def dumpsObj (kvs : List (String × Value)) : List Char :=
  lbrace :: (joinComma (kvs.map dumpPair) ++ [rbrace])

/-! ## The HTTP layer of `execute` -/

/-- The endpoint's success body: `{"name": ..., "arguments": "..."}`
with `arguments` itself a JSON-encoded string. -/
structure Resp where
  name : String
  arguments : String
  deriving DecidableEq, Repr

/-- An `HTTPException`: status code and detail. -/
structure HttpError where
  status : Nat
  detail : String
  deriving DecidableEq, Repr

/-- `build_response`: serialize the ordered arguments. -/
def build_response (funcName : String) (kvs : List (String × Value)) : Resp :=
  ⟨funcName, String.mk (dumpsObj kvs)⟩

def renderError : RouteError → HttpError
  | .emptyInput => ⟨400, "Missing query parameter q"⟩
  | .noRuleMatched => ⟨400, "Could not map query to any pre-defined function. Make sure the question follows one of the templated formats."⟩
  | .invalidArgument p => ⟨400, "Invalid integer for " ++ p⟩
  | .internalPatternError => ⟨500, "Parsing error: group count mismatch"⟩
  | .uncaughtValueError => ⟨500, "Internal Server Error"⟩

/-- The `/execute` endpoint.  `q = none` models a request without the
query parameter; Python's `if not q:` also catches the empty string. -/
def execute (q : Option String) : Except HttpError Resp :=
  match q with
  | none => .error (renderError .emptyInput)
  | some qs =>
    if qs = "" then .error (renderError .emptyInput)
    else
      match routeCore (pyStrip qs.data) with
      | .ok (n, kvs) => .ok (build_response n kvs)
      | .error e => .error (renderError e)

/-! ## A JSON object-skeleton parser

Used to state that `build_response` emits a *valid* JSON object string:
the parser accepts `\x7b"k₁": v₁, ..., "kₙ": vₙ\x7d` where each `kᵢ` is a
string literal and each `vᵢ` is a string literal or a signed decimal
number, and returns the keys in order. -/

/-- Scan a JSON string literal body (after the opening quote): returns
the raw (still escaped) content and the input after the closing quote. -/
def scanRaw : List Char → Option (List Char × List Char)
  | [] => none
  | c :: r =>
    if c = '"' then some ([], r)
    else if c = '\\' then
      match r with
      | [] => none
      | d :: r2 => (scanRaw r2).map (fun p => ('\\' :: d :: p.1, p.2))
    else (scanRaw r).map (fun p => (c :: p.1, p.2))

/-- A character of a JSON number as emitted here (digit or minus). -/
def isNumChar (c : Char) : Bool := isDigitChar c || c = '-'

/-- Skip one JSON value (string literal or number), returning the rest. -/
def skipValue (l : List Char) : Option (List Char) :=
  match l with
  | [] => none
  | c :: r =>
    if c = '"' then (scanRaw r).map (fun p => p.2)
    else if l.takeWhile isNumChar = [] then none
    else some (l.drop (l.takeWhile isNumChar).length)

/-- Parse the members of a JSON object (after the opening brace),
returning the raw key texts; `fuel` bounds the number of members. -/
def parseMembers : Nat → List Char → Option (List String)
  | 0, _ => none
  | fuel + 1, s =>
    match s with
    | c :: r =>
      if c = '"' then
        match scanRaw r with
        | some (key, r2) =>
          match r2 with
          | ':' :: ' ' :: r3 =>
            match skipValue r3 with
            | some r4 =>
              match r4 with
              | d :: r5 =>
                if d = rbrace then (if r5 = [] then some [String.mk key] else none)
                else if d = ',' then
                  match r5 with
                  | ' ' :: r6 => (parseMembers fuel r6).map (fun ks => String.mk key :: ks)
                  | _ => none
                else none
              | [] => none
            | none => none
          | _ => none
        | none => none
      else none
    | [] => none

/-- Parse a complete JSON object string, returning its keys in order;
`none` when the string is not a well-formed object of this shape. -/
def jsonObjKeys? (s : List Char) : Option (List String) :=
  match s with
  | c :: rest =>
    if c = lbrace then
      if rest = [rbrace] then some [] else parseMembers rest.length rest
    else none
  | [] => none

/-! ## Spec-side auxiliary notions -/

/-- The positional base-10 denotation of a digit string: the spec's
"the integer denoted by that digit sequence" (most significant first). -/
def specDecimal : List Char → Nat
  | [] => 0
  | c :: t => digitVal c * 10 ^ t.length + specDecimal t

/-- Case-insensitive equality of character lists. -/
def LowerEqList (w t : List Char) : Prop :=
  w.map Char.toLower = t.map Char.toLower

/-- The spec's description of when the fallback applies: the text
contains the literal word "ticket" (case-insensitively) followed by
whitespace and one or more digits. -/
def TicketPhrase (s : List Char) : Prop :=
  ∃ pre w sp ds post, s = pre ++ w ++ sp ++ ds ++ post ∧
    LowerEqList w "ticket".data ∧
    sp ≠ [] ∧ sp.all isSpaceChar ∧ ds ≠ [] ∧ ds.all isDigitChar

/-- The capturing groups of a pattern, in order. -/
def groupsOf (items : List Item) : List (List Atom) :=
  items.filterMap (fun it =>
    match it with
    | .group as => some as
    | _ => none)

/-- Number of capture groups of a pattern. -/
def countGroups (items : List Item) : Nat := (groupsOf items).length

end TechNova

namespace TechNova

/-! ## Character facts -/

theorem not_space_of_digit {c : Char} (h : isDigitChar c = true) :
    isSpaceChar c = false := by
  simp only [isDigitChar, Bool.and_eq_true, decide_eq_true_eq] at h
  simp only [isSpaceChar, Bool.or_eq_false_iff, beq_eq_false_iff_ne, ne_eq]
  omega

theorem digit_ne_plus {c : Char} (h : isDigitChar c = true) : c ≠ '+' := by
  rintro rfl; exact absurd h (by decide)

theorem digit_ne_minus {c : Char} (h : isDigitChar c = true) : c ≠ '-' := by
  rintro rfl; exact absurd h (by decide)

/-! ## Runs and slices -/

theorem take_all_of_le_takeWhile {α : Type} {p : α → Bool} :
    ∀ (l : List α) (k : Nat), k ≤ (l.takeWhile p).length →
      (l.take k).all p = true := by
  intro l
  induction l with
  | nil => intro k hk; simp at hk; simp [hk]
  | cons a t ih =>
    intro k hk
    by_cases hp : p a
    · cases k with
      | zero => simp
      | succ k' =>
        rw [List.takeWhile_cons_of_pos hp] at hk
        simp only [List.length_cons, Nat.succ_le_succ_iff] at hk
        simp [hp, ih k' hk]
    · rw [List.takeWhile_cons_of_neg hp] at hk
      simp at hk
      simp [hk]

theorem charInClass_digit : charInClass .digit = isDigitChar := rfl

theorem charInClass_space : charInClass .space = isSpaceChar := rfl

theorem runLen_le (c : CClass) (s : List Char) (i : Nat) :
    runLen c s i ≤ s.length - i := by
  calc runLen c s i ≤ (s.drop i).length :=
        (List.takeWhile_sublist (charInClass c)).length_le
    _ = s.length - i := s.length_drop i

theorem runLen_ge_of_prefix {c : CClass} {s : List Char} {i : Nat}
    {sp rest : List Char} (h : s.drop i = sp ++ rest)
    (hsp : sp.all (charInClass c) = true) : sp.length ≤ runLen c s i := by
  unfold runLen
  rw [h, List.takeWhile_append_of_pos (by simpa using hsp)]
  simp

theorem runLen_of_split {c : CClass} {s : List Char} {i : Nat}
    {sp rest : List Char} {d : Char} (h : s.drop i = sp ++ d :: rest)
    (hsp : sp.all (charInClass c) = true) (hd : charInClass c d = false) :
    runLen c s i = sp.length := by
  unfold runLen
  rw [h, List.takeWhile_append_of_pos (by simpa using hsp),
    List.takeWhile_cons_of_neg (by simp [hd])]
  simp

/-! ## Matcher membership lemmas -/

theorem mem_matchAtom_plus {c : CClass} {s : List Char} {i j : Nat} :
    j ∈ matchAtom (.plus c) s i ↔ i < j ∧ j ≤ i + runLen c s i := by
  simp only [matchAtom, List.mem_map, List.mem_range]
  constructor
  · rintro ⟨k, hk, rfl⟩; omega
  · rintro ⟨h1, h2⟩; exact ⟨i + runLen c s i - j, by omega, by omega⟩

theorem mem_matchAtom_plusLazy {c : CClass} {s : List Char} {i j : Nat} :
    j ∈ matchAtom (.plusLazy c) s i ↔ i < j ∧ j ≤ i + runLen c s i := by
  simp only [matchAtom, List.mem_map, List.mem_range]
  constructor
  · rintro ⟨k, hk, rfl⟩; omega
  · rintro ⟨h1, h2⟩; exact ⟨j - i - 1, by omega, by omega⟩

theorem mem_matchAtom_rep {c : CClass} {s : List Char} {i j n : Nat} :
    j ∈ matchAtom (.rep c n) s i ↔ n ≤ runLen c s i ∧ j = i + n := by
  simp only [matchAtom]
  by_cases h : n ≤ runLen c s i <;> simp [h]

theorem mem_matchAtoms_single {a : Atom} {s : List Char} {i j : Nat} :
    j ∈ matchAtoms [a] s i ↔ j ∈ matchAtom a s i := by
  simp [matchAtoms, List.mem_flatMap]

/-- A one-or-more digit capture span holds a nonempty all-digit text. -/
theorem capture_plus_digit {s : List Char} {a b : Nat}
    (h : b ∈ matchAtoms [.plus .digit] s a) :
    captureText s (a, b) ≠ [] ∧ (captureText s (a, b)).all isDigitChar = true := by
  rw [mem_matchAtoms_single, mem_matchAtom_plus] at h
  obtain ⟨h1, h2⟩ := h
  have hr := runLen_le .digit s a
  constructor
  · have : (captureText s (a, b)).length = b - a := by
      simp only [captureText, List.length_take, List.length_drop]
      omega
    intro hnil
    rw [hnil] at this
    simp at this
    omega
  · rw [show captureText s (a, b) = (s.drop a).take (b - a) from rfl,
      ← charInClass_digit]
    exact take_all_of_le_takeWhile (s.drop a) (b - a) (by unfold runLen at h2; omega)

/-- An exactly-`n`-digits capture span (`n ≥ 1`) holds a nonempty
all-digit text. -/
theorem capture_rep_digit {s : List Char} {a b n : Nat} (hn : 1 ≤ n)
    (h : b ∈ matchAtoms [.rep .digit n] s a) :
    captureText s (a, b) ≠ [] ∧ (captureText s (a, b)).all isDigitChar = true := by
  rw [mem_matchAtoms_single, mem_matchAtom_rep] at h
  obtain ⟨h1, rfl⟩ := h
  have hr := runLen_le .digit s a
  constructor
  · have : (captureText s (a, a + n)).length = n := by
      simp only [captureText, List.length_take, List.length_drop]
      omega
    intro hnil
    rw [hnil] at this
    simp at this
    omega
  · rw [show captureText s (a, a + n) = (s.drop a).take (a + n - a) from rfl,
      ← charInClass_digit]
    exact take_all_of_le_takeWhile (s.drop a) (a + n - a) (by unfold runLen at h1; omega)

/-! ## Soundness of `matchItems` for capture spans -/

/-- Every result of `matchItems` has one capture span per group, in
order, each span reachable by that group's atoms. -/
theorem matchItems_sound (s : List Char) :
    ∀ (items : List Item) (i : Nat) (r : Nat × List (Nat × Nat)),
      r ∈ matchItems items s i →
      List.Forall₂ (fun as sp => sp.2 ∈ matchAtoms as s sp.1) (groupsOf items) r.2 := by
  intro items
  induction items with
  | nil =>
    intro i r h
    simp only [matchItems, List.mem_singleton] at h
    subst h
    simp [groupsOf]
  | cons it rest ih =>
    intro i r h
    cases it with
    | atom a =>
      simp only [matchItems, List.mem_flatMap] at h
      obtain ⟨j, _, hr⟩ := h
      simpa [groupsOf] using ih j r hr
    | group as =>
      simp only [matchItems, List.mem_flatMap, List.mem_map] at h
      obtain ⟨j, hj, r', hr', rfl⟩ := h
      have hall : List.Forall₂ (fun as sp => sp.2 ∈ matchAtoms as s sp.1)
          (as :: groupsOf rest) ((i, j) :: r'.2) :=
        List.Forall₂.cons hj (ih j r' hr')
      simpa [groupsOf] using hall
    | optAlt alts =>
      simp only [matchItems, List.mem_flatMap] at h
      obtain ⟨j, _, hr⟩ := h
      simpa [groupsOf] using ih j r hr
    | wb =>
      simp only [matchItems] at h
      by_cases hb : isBoundary s i
      · rw [if_pos hb] at h
        simpa [groupsOf] using ih i r h
      · rw [if_neg hb] at h
        simp at h
    | eos =>
      simp only [matchItems] at h
      by_cases hb : atEos s i
      · rw [if_pos hb] at h
        simpa [groupsOf] using ih i r h
      · rw [if_neg hb] at h
        simp at h

/-! ## `searchRE` introduction and elimination -/

theorem findSome?_isSome_of_mem {α β : Type} {l : List α} {f : α → Option β}
    {a : α} (ha : a ∈ l) (hf : (f a).isSome) : (l.findSome? f).isSome := by
  induction l with
  | nil => simp at ha
  | cons x t ih =>
    rw [List.findSome?_cons]
    cases hx : f x with
    | some b => simp
    | none =>
      rcases List.mem_cons.mp ha with rfl | hm
      · rw [hx] at hf; simp at hf
      · exact ih hm

theorem searchRE_eq_some_elim {items : List Item} {s : List Char}
    {caps : List (Nat × Nat)} (h : searchRE items s = some caps) :
    ∃ i r, r ∈ matchItems items s i ∧ r.2 = caps := by
  obtain ⟨i, _, hi⟩ := List.exists_of_findSome?_eq_some h
  simp only [Option.map_eq_some'] at hi
  obtain ⟨r, hr, rfl⟩ := hi
  obtain ⟨ys, hys⟩ := List.head?_eq_some_iff.mp hr
  exact ⟨i, r, by rw [hys]; exact List.mem_cons_self r ys, rfl⟩

theorem searchRE_isSome_of {items : List Item} {s : List Char} {i : Nat}
    (hi : i ≤ s.length) (h : matchItems items s i ≠ []) :
    (searchRE items s).isSome := by
  apply findSome?_isSome_of_mem (a := i) (by simp [List.mem_range]; omega)
  cases hm : matchItems items s i with
  | nil => exact absurd hm h
  | cons r t => simp

/-! ## Integer parsing -/

theorem dropWhile_eq_self_of_all_not {α : Type} {p : α → Bool} {l : List α}
    (h : ∀ x ∈ l, p x = false) : l.dropWhile p = l := by
  cases l with
  | nil => rfl
  | cons a t =>
    exact List.dropWhile_cons_of_neg (by simp [h a (List.mem_cons_self a t)])

/-- Stripping leaves an all-digit string unchanged. -/
theorem pyStrip_of_all_digit {ds : List Char} (h : ds.all isDigitChar = true) :
    pyStrip ds = ds := by
  have hnotsp : ∀ x ∈ ds, isSpaceChar x = false := fun x hx =>
    not_space_of_digit (List.all_eq_true.mp h x hx)
  unfold pyStrip
  rw [dropWhile_eq_self_of_all_not hnotsp,
    dropWhile_eq_self_of_all_not (fun x hx => hnotsp x (List.mem_reverse.mp hx)),
    List.reverse_reverse]

/-- Horner evaluation agrees with the positional denotation. -/
theorem foldl_digits (l : List Char) :
    ∀ a : Nat, l.foldl (fun a c => a * 10 + digitVal c) a =
      a * 10 ^ l.length + specDecimal l := by
  induction l with
  | nil => intro a; simp [specDecimal]
  | cons c t ih =>
    intro a
    rw [List.foldl_cons, ih (a * 10 + digitVal c)]
    simp only [specDecimal, List.length_cons, pow_succ]
    ring

/-- `int()` on a nonempty ASCII digit string returns exactly the
integer that the digit string denotes in base 10. -/
theorem pythonInt?_digits {ds : List Char} (h1 : ds ≠ [])
    (h2 : ds.all isDigitChar = true) :
    pythonInt? ds = some ((specDecimal ds : Nat) : Int) := by
  unfold pythonInt?
  rw [pyStrip_of_all_digit h2]
  cases ds with
  | nil => exact absurd rfl h1
  | cons c t =>
    have hc : isDigitChar c = true := by
      have := List.all_eq_true.mp h2 c (List.mem_cons_self c t)
      simpa using this
    rw [pythonIntCore, if_neg (digit_ne_plus hc), if_neg (digit_ne_minus hc)]
    unfold parseDigits?
    rw [if_pos ⟨List.cons_ne_nil c t, h2⟩]
    rw [Option.map_some']
    congr 1
    rw [foldl_digits]
    simp [Int.ofNat_eq_coe]

/-- Claim C6's computation: an Integer-kind coercion of a digit capture
stores exactly the denoted integer. -/
theorem coerceOne_int_digits {key : String} {ds : List Char} (h1 : ds ≠ [])
    (h2 : ds.all isDigitChar = true) :
    coerceOne .int key ds = .ok (.int ((specDecimal ds : Nat) : Int)) := by
  unfold coerceOne
  rw [pythonInt?_digits h1 h2]

/-! ## The rule loop -/

theorem firstRuleMatch_elim {rs : List Rule} {s : List Char} {R : Rule}
    {caps : List (Nat × Nat)} (h : firstRuleMatch rs s = some (R, caps)) :
    R ∈ rs ∧ searchRE R.pattern s = some caps := by
  induction rs with
  | nil => simp [firstRuleMatch] at h
  | cons Q qs ih =>
    rw [firstRuleMatch] at h
    cases hq : searchRE Q.pattern s with
    | some caps' =>
      rw [hq] at h
      obtain ⟨rfl, rfl⟩ : Q = R ∧ caps' = caps := by
        constructor <;> [exact congrArg Prod.fst (Option.some.inj h);
          exact congrArg Prod.snd (Option.some.inj h)]
      exact ⟨List.mem_cons_self Q qs, hq⟩
    | none =>
      rw [hq] at h
      obtain ⟨hm, hs⟩ := ih h
      exact ⟨List.mem_cons_of_mem Q hm, hs⟩

theorem firstRuleMatch_of_first {s : List Char} :
    ∀ (rs : List Rule) (i : Nat) (R : Rule) (caps : List (Nat × Nat)),
      rs[i]? = some R → searchRE R.pattern s = some caps →
      (∀ j S, j < i → rs[j]? = some S → searchRE S.pattern s = none) →
      firstRuleMatch rs s = some (R, caps) := by
  intro rs
  induction rs with
  | nil => intro i R caps hi; simp at hi
  | cons Q qs ih =>
    intro i R caps hi hR hfirst
    cases i with
    | zero =>
      simp at hi
      subst hi
      rw [firstRuleMatch, hR]
    | succ i' =>
      have hQ : searchRE Q.pattern s = none :=
        hfirst 0 Q (Nat.succ_pos i') (by simp)
      rw [firstRuleMatch, hQ]
      simp only [List.getElem?_cons_succ] at hi
      exact ih i' R caps hi hR
        (fun j S hj hS => hfirst (j + 1) S (Nat.succ_lt_succ hj)
          (by simpa using hS))

theorem firstRuleMatch_none {s : List Char} :
    ∀ rs : List Rule, (∀ R ∈ rs, searchRE R.pattern s = none) →
      firstRuleMatch rs s = none := by
  intro rs
  induction rs with
  | nil => intro _; rfl
  | cons Q qs ih =>
    intro h
    rw [firstRuleMatch, h Q (List.mem_cons_self Q qs)]
    exact ih (fun R hR => h R (List.mem_cons_of_mem Q hR))

/-! ## Per-rule correctness of capture extraction and coercion -/

theorem except_bind_ok {ε α β : Type} (a : α) (f : α → Except ε β) :
    (Except.ok a : Except ε α) >>= f = f a := rfl

theorem ticketRule_ok {s : List Char} {caps : List (Nat × Nat)}
    (h : searchRE ticketRule.pattern s = some caps) :
    caps.length = ticketRule.arg_keys.length ∧
    ∃ kvs, coerceAll (ticketRule.arg_keys.zip
        (ticketRule.arg_types.zip (caps.map (captureText s)))) = .ok kvs ∧
      kvs.map Prod.fst = ticketRule.arg_keys := by
  obtain ⟨i, r, hr, hcaps⟩ := searchRE_eq_some_elim h
  have hs := matchItems_sound s ticketRule.pattern i r hr
  rw [hcaps, show groupsOf ticketRule.pattern = [[.plus .digit]] from rfl] at hs
  cases hs with
  | cons hsp htail =>
    cases htail
    rename_i sp
    obtain ⟨hne, hdig⟩ := capture_plus_digit hsp
    refine ⟨rfl, ⟨[("ticket_id", .int ((specDecimal (captureText s sp) : Nat) : Int))],
      ?_, rfl⟩⟩
    simp [ticketRule, coerceAll, coerceOne_int_digits hne hdig, except_bind_ok]

theorem meetingRule_ok {s : List Char} {caps : List (Nat × Nat)}
    (h : searchRE meetingRule.pattern s = some caps) :
    caps.length = meetingRule.arg_keys.length ∧
    ∃ kvs, coerceAll (meetingRule.arg_keys.zip
        (meetingRule.arg_types.zip (caps.map (captureText s)))) = .ok kvs ∧
      kvs.map Prod.fst = meetingRule.arg_keys := by
  obtain ⟨i, r, hr, hcaps⟩ := searchRE_eq_some_elim h
  have hs := matchItems_sound s meetingRule.pattern i r hr
  rw [hcaps] at hs
  have hlen : caps.length = (groupsOf meetingRule.pattern).length :=
    (List.Forall₂.length_eq hs).symm
  refine ⟨by simpa [meetingRule, countGroups] using hlen, ?_⟩
  rw [show groupsOf meetingRule.pattern =
    [[.rep .digit 4, .lit "-".data, .rep .digit 2, .lit "-".data, .rep .digit 2],
     [.rep12 .digit, .lit ":".data, .rep .digit 2],
     [.plus .dot]] from rfl] at hs
  cases hs with
  | cons h1 htail =>
    cases htail with
    | cons h2 htail2 =>
      cases htail2 with
      | cons h3 htail3 =>
        cases htail3
        rename_i sp1 sp2 sp3
        refine ⟨[("date", .str (pyStrip (captureText s sp1))),
          ("time", .str (pyStrip (captureText s sp2))),
          ("meeting_room", .str (pyStrip (captureText s sp3)))], ?_, rfl⟩
        simp [meetingRule, coerceAll, coerceOne, except_bind_ok]

theorem expenseRule_ok {s : List Char} {caps : List (Nat × Nat)}
    (h : searchRE expenseRule.pattern s = some caps) :
    caps.length = expenseRule.arg_keys.length ∧
    ∃ kvs, coerceAll (expenseRule.arg_keys.zip
        (expenseRule.arg_types.zip (caps.map (captureText s)))) = .ok kvs ∧
      kvs.map Prod.fst = expenseRule.arg_keys := by
  obtain ⟨i, r, hr, hcaps⟩ := searchRE_eq_some_elim h
  have hs := matchItems_sound s expenseRule.pattern i r hr
  rw [hcaps, show groupsOf expenseRule.pattern = [[.plus .digit]] from rfl] at hs
  cases hs with
  | cons hsp htail =>
    cases htail
    rename_i sp
    obtain ⟨hne, hdig⟩ := capture_plus_digit hsp
    refine ⟨rfl, ⟨[("employee_id", .int ((specDecimal (captureText s sp) : Nat) : Int))],
      ?_, rfl⟩⟩
    simp [expenseRule, coerceAll, coerceOne_int_digits hne hdig, except_bind_ok]

theorem bonusRule_ok {s : List Char} {caps : List (Nat × Nat)}
    (h : searchRE bonusRule.pattern s = some caps) :
    caps.length = bonusRule.arg_keys.length ∧
    ∃ kvs, coerceAll (bonusRule.arg_keys.zip
        (bonusRule.arg_types.zip (caps.map (captureText s)))) = .ok kvs ∧
      kvs.map Prod.fst = bonusRule.arg_keys := by
  obtain ⟨i, r, hr, hcaps⟩ := searchRE_eq_some_elim h
  have hs := matchItems_sound s bonusRule.pattern i r hr
  rw [hcaps, show groupsOf bonusRule.pattern =
    [[.plus .digit], [.rep .digit 4]] from rfl] at hs
  cases hs with
  | cons hsp htail =>
    cases htail with
    | cons hsp2 htail2 =>
      cases htail2
      rename_i sp1 sp2
      obtain ⟨hne1, hdig1⟩ := capture_plus_digit hsp
      obtain ⟨hne2, hdig2⟩ := capture_rep_digit (by omega) hsp2
      refine ⟨rfl,
        ⟨[("employee_id", .int ((specDecimal (captureText s sp1) : Nat) : Int)),
          ("current_year", .int ((specDecimal (captureText s sp2) : Nat) : Int))],
        ?_, rfl⟩⟩
      simp [bonusRule, coerceAll, coerceOne_int_digits hne1 hdig1,
        coerceOne_int_digits hne2 hdig2, except_bind_ok]

theorem issueRule_ok {s : List Char} {caps : List (Nat × Nat)}
    (h : searchRE issueRule.pattern s = some caps) :
    caps.length = issueRule.arg_keys.length ∧
    ∃ kvs, coerceAll (issueRule.arg_keys.zip
        (issueRule.arg_types.zip (caps.map (captureText s)))) = .ok kvs ∧
      kvs.map Prod.fst = issueRule.arg_keys := by
  obtain ⟨i, r, hr, hcaps⟩ := searchRE_eq_some_elim h
  have hs := matchItems_sound s issueRule.pattern i r hr
  rw [hcaps, show groupsOf issueRule.pattern =
    [[.plus .digit], [.plusLazy .dot]] from rfl] at hs
  cases hs with
  | cons hsp htail =>
    cases htail with
    | cons hsp2 htail2 =>
      cases htail2
      rename_i sp1 sp2
      obtain ⟨hne1, hdig1⟩ := capture_plus_digit hsp
      refine ⟨rfl,
        ⟨[("issue_code", .int ((specDecimal (captureText s sp1) : Nat) : Int)),
          ("department", .str (pyStrip (captureText s sp2)))], ?_, rfl⟩⟩
      simp [issueRule, coerceAll, coerceOne, pythonInt?_digits hne1 hdig1,
        except_bind_ok]

/-- Combined: whichever rule of the table matches, the capture count
equals the declared parameter count and coercion succeeds, producing
the declared keys in declared order. -/
theorem rule_ok {R : Rule} (hR : R ∈ PATTERNS) {s : List Char}
    {caps : List (Nat × Nat)} (h : searchRE R.pattern s = some caps) :
    caps.length = R.arg_keys.length ∧
    ∃ kvs, coerceAll (R.arg_keys.zip
        (R.arg_types.zip (caps.map (captureText s)))) = .ok kvs ∧
      kvs.map Prod.fst = R.arg_keys := by
  simp only [PATTERNS, List.mem_cons, List.not_mem_nil, or_false] at hR
  rcases hR with rfl | rfl | rfl | rfl | rfl
  · exact ticketRule_ok h
  · exact meetingRule_ok h
  · exact expenseRule_ok h
  · exact bonusRule_ok h
  · exact issueRule_ok h

/-! ## `routeCore` case analysis -/

/-- When some rule of the table matches, `routeCore` succeeds with that
rule's name and its keys in declared order. -/
theorem routeCore_match {s : List Char} {R : Rule} {caps : List (Nat × Nat)}
    (h : firstRuleMatch PATTERNS s = some (R, caps)) :
    ∃ kvs, routeCore s = .ok (R.name, kvs) ∧ kvs.map Prod.fst = R.arg_keys := by
  obtain ⟨hmem, hsearch⟩ := firstRuleMatch_elim h
  obtain ⟨hlen, kvs, hco, hkeys⟩ := rule_ok hmem hsearch
  refine ⟨kvs, ?_, hkeys⟩
  unfold routeCore
  simp only [h]
  rw [if_neg (fun hne => hne hlen), hco]
  rfl

/-- The fallback's single capture is a nonempty digit string. -/
theorem fallback_caps {s : List Char} {caps : List (Nat × Nat)}
    (h : searchRE fallbackItems s = some caps) :
    ∃ sp, caps = [sp] ∧ captureText s sp ≠ [] ∧
      (captureText s sp).all isDigitChar = true := by
  obtain ⟨i, r, hr, hcaps⟩ := searchRE_eq_some_elim h
  have hs := matchItems_sound s fallbackItems i r hr
  rw [hcaps, show groupsOf fallbackItems = [[.plus .digit]] from rfl] at hs
  cases hs with
  | cons hsp htail =>
    cases htail
    rename_i sp
    obtain ⟨hne, hdig⟩ := capture_plus_digit hsp
    exact ⟨sp, rfl, hne, hdig⟩

/-- When no rule matches but the fallback does, `routeCore` produces
the ticket descriptor. -/
theorem routeCore_fallback {s : List Char} {caps : List (Nat × Nat)}
    (hnone : firstRuleMatch PATTERNS s = none)
    (h : searchRE fallbackItems s = some caps) :
    ∃ n : Int, routeCore s =
      .ok ("get_ticket_status", [("ticket_id", Value.int n)]) := by
  obtain ⟨sp, rfl, hne, hdig⟩ := fallback_caps h
  refine ⟨((specDecimal (captureText s sp) : Nat) : Int), ?_⟩
  unfold routeCore
  rw [hnone, h]
  simp [pythonInt?_digits hne hdig]

/-- When neither a rule nor the fallback matches, `routeCore` fails
with `NoRuleMatched`. -/
theorem routeCore_noMatch {s : List Char}
    (hnone : firstRuleMatch PATTERNS s = none)
    (hfb : searchRE fallbackItems s = none) :
    routeCore s = .error .noRuleMatched := by
  unfold routeCore
  rw [hnone, hfb]

/-- Master case analysis: `routeCore` either succeeds with the name and
declared keys of some table rule, or fails with `NoRuleMatched`. -/
theorem routeCore_cases (s : List Char) :
    (∃ R kvs, R ∈ PATTERNS ∧ routeCore s = .ok (R.name, kvs) ∧
      kvs.map Prod.fst = R.arg_keys) ∨
    routeCore s = .error .noRuleMatched := by
  cases hfm : firstRuleMatch PATTERNS s with
  | some pr =>
    obtain ⟨R, caps⟩ := pr
    obtain ⟨kvs, hok, hkeys⟩ := routeCore_match hfm
    exact .inl ⟨R, kvs, (firstRuleMatch_elim hfm).1, hok, hkeys⟩
  | none =>
    cases hfb : searchRE fallbackItems s with
    | some caps =>
      obtain ⟨n, hok⟩ := routeCore_fallback hfm hfb
      exact .inl ⟨ticketRule, [("ticket_id", Value.int n)],
        by simp [PATTERNS], hok, rfl⟩
    | none => exact .inr (routeCore_noMatch hfm hfb)

/-! ## JSON round-trip: scanning emitted string literals -/

theorem scanRaw_cons_normal {c : Char} (h1 : c ≠ '"') (h2 : c ≠ '\\')
    (l : List Char) :
    scanRaw (c :: l) = (scanRaw l).map (fun p => (c :: p.1, p.2)) := by
  rw [scanRaw.eq_def]
  simp only [h1, h2, if_false, ite_false]

theorem scanRaw_cons_esc (d : Char) (l : List Char) :
    scanRaw ('\\' :: d :: l) = (scanRaw l).map (fun p => ('\\' :: d :: p.1, p.2)) := by
  rw [scanRaw, if_neg (by decide), if_pos rfl]

theorem hexDigit_ne {n : Nat} (h : n < 16) :
    hexDigit n ≠ '"' ∧ hexDigit n ≠ '\\' := by
  interval_cases n <;> exact ⟨by decide, by decide⟩

/-- Shape analysis of one emitted escape sequence. -/
theorem escChar_cases (c : Char) :
    (∃ d, escChar c = ['\\', d]) ∨
    (∃ h1 h2, escChar c = ['\\', 'u', '0', '0', h1, h2] ∧
      (h1 ≠ '"' ∧ h1 ≠ '\\') ∧ (h2 ≠ '"' ∧ h2 ≠ '\\')) ∨
    (escChar c = [c] ∧ c ≠ '"' ∧ c ≠ '\\') := by
  unfold escChar
  by_cases hb : c = '\\'
  · rw [if_pos hb]; exact .inl ⟨'\\', rfl⟩
  rw [if_neg hb]
  by_cases hq : c = '"'
  · rw [if_pos hq]; exact .inl ⟨'"', rfl⟩
  rw [if_neg hq]
  by_cases hc : c.toNat < 32
  · rw [if_pos hc]
    by_cases h8 : c = Char.ofNat 8
    · rw [if_pos h8]; exact .inl ⟨'b', rfl⟩
    rw [if_neg h8]
    by_cases h9 : c = Char.ofNat 9
    · rw [if_pos h9]; exact .inl ⟨'t', rfl⟩
    rw [if_neg h9]
    by_cases h10 : c = Char.ofNat 10
    · rw [if_pos h10]; exact .inl ⟨'n', rfl⟩
    rw [if_neg h10]
    by_cases h12 : c = Char.ofNat 12
    · rw [if_pos h12]; exact .inl ⟨'f', rfl⟩
    rw [if_neg h12]
    by_cases h13 : c = Char.ofNat 13
    · rw [if_pos h13]; exact .inl ⟨'r', rfl⟩
    rw [if_neg h13]
    exact .inr (.inl ⟨_, _, rfl, hexDigit_ne (by omega),
      hexDigit_ne (Nat.mod_lt _ (by omega))⟩)
  · rw [if_neg hc]
    exact .inr (.inr ⟨rfl, hq, hb⟩)

theorem scanRaw_escChar (c : Char) (l : List Char) :
    scanRaw (escChar c ++ l) =
      (scanRaw l).map (fun p => (escChar c ++ p.1, p.2)) := by
  rcases escChar_cases c with ⟨d, hd⟩ | ⟨h1, h2, heq, hh1, hh2⟩ | ⟨heq, hq, hb⟩
  · rw [hd]
    rw [show (['\\', d] : List Char) ++ l = '\\' :: d :: l from rfl,
      scanRaw_cons_esc]
    rfl
  · rw [heq]
    rw [show (['\\', 'u', '0', '0', h1, h2] : List Char) ++ l =
      '\\' :: 'u' :: '0' :: '0' :: h1 :: h2 :: l from rfl]
    rw [scanRaw_cons_esc,
      scanRaw_cons_normal (by decide) (by decide),
      scanRaw_cons_normal (by decide) (by decide),
      scanRaw_cons_normal hh1.1 hh1.2,
      scanRaw_cons_normal hh2.1 hh2.2]
    cases scanRaw l <;> rfl
  · rw [heq]
    rw [show ([c] : List Char) ++ l = c :: l from rfl,
      scanRaw_cons_normal hq hb]
    rfl

/-- Scanning an emitted escaped string finds exactly the closing quote. -/
theorem scanRaw_escChars (v rest : List Char) :
    scanRaw (escChars v ++ '"' :: rest) = some (escChars v, rest) := by
  induction v with
  | nil =>
    show scanRaw ('"' :: rest) = some ([], rest)
    rw [scanRaw.eq_def]
    simp
  | cons c t ih =>
    rw [show escChars (c :: t) = escChar c ++ escChars t from rfl,
      List.append_assoc, scanRaw_escChar, ih]
    rfl

/-! ## JSON round-trip: skipping emitted values -/

theorem takeWhile_split {α : Type} {p : α → Bool} {l₁ : List α} {c : α}
    (h : l₁.all p = true) (hc : p c = false) (l₂ : List α) :
    (l₁ ++ c :: l₂).takeWhile p = l₁ := by
  rw [List.takeWhile_append_of_pos (by simpa using h),
    List.takeWhile_cons_of_neg (by simp [hc])]
  simp

theorem natDigitsAux_all : ∀ (fuel n : Nat),
    (natDigitsAux fuel n).all isDigitChar = true := by
  intro fuel
  induction fuel with
  | zero => intro n; rfl
  | succ f ih =>
    intro n
    rw [natDigitsAux]
    by_cases h : n < 10
    · rw [if_pos h]
      have : isDigitChar (Char.ofNat (48 + n)) = true := by
        interval_cases n <;> decide
      simp [this]
    · rw [if_neg h]
      have h10 : n % 10 < 10 := Nat.mod_lt _ (by omega)
      have : isDigitChar (Char.ofNat (48 + n % 10)) = true := by
        interval_cases hm : (n % 10) <;> decide
      simp [ih, this]

theorem natDigitsAux_ne_nil (fuel n : Nat) :
    natDigitsAux (fuel + 1) n ≠ [] := by
  rw [natDigitsAux]
  by_cases h : n < 10
  · rw [if_pos h]; exact List.cons_ne_nil _ _
  · rw [if_neg h]; simp

theorem intRepr_all (n : Int) : (intRepr n).all isNumChar = true := by
  have hdig : ∀ m : Nat, (natDigits m).all isNumChar = true := by
    intro m
    have := natDigitsAux_all (m + 1) m
    rw [List.all_eq_true] at this ⊢
    intro x hx
    simp [isNumChar, this x hx]
  unfold intRepr
  by_cases h : n < 0
  · rw [if_pos h]
    simp [hdig, isNumChar]
  · rw [if_neg h]
    exact hdig _

theorem intRepr_ne_nil (n : Int) : intRepr n ≠ [] := by
  unfold intRepr
  by_cases h : n < 0
  · rw [if_pos h]; exact List.cons_ne_nil _ _
  · rw [if_neg h]; exact natDigitsAux_ne_nil _ _

/-- Skipping an emitted value stops exactly at the following separator
character (which is `,` or the closing brace, neither of which can
continue a number). -/
theorem skipValue_dumpVal (v : Value) {c : Char} (hc : isNumChar c = false)
    (rest : List Char) :
    skipValue (dumpVal v ++ c :: rest) = some (c :: rest) := by
  cases v with
  | str w =>
    rw [show dumpVal (.str w) ++ c :: rest =
      '"' :: (escChars w ++ '"' :: (c :: rest)) by simp [dumpVal]]
    rw [skipValue, if_pos rfl, scanRaw_escChars]
    rfl
  | int n =>
    obtain ⟨d, t, hd⟩ : ∃ d t, intRepr n = d :: t := by
      cases h : intRepr n with
      | nil => exact absurd h (intRepr_ne_nil n)
      | cons d t => exact ⟨d, t, rfl⟩
    have hall : (d :: t).all isNumChar = true := by
      rw [← hd]; exact intRepr_all n
    have hdnum : isNumChar d = true := by
      rw [List.all_cons] at hall
      exact (Bool.and_eq_true .. ▸ hall).1
    have hdq : d ≠ '"' := by
      rintro rfl
      exact absurd hdnum (by decide)
    rw [show dumpVal (.int n) ++ c :: rest = d :: (t ++ c :: rest) by
      simp [dumpVal, hd]]
    have htw : (d :: (t ++ c :: rest)).takeWhile isNumChar = d :: t := by
      rw [show d :: (t ++ c :: rest) = (d :: t) ++ c :: rest from rfl]
      exact takeWhile_split hall hc rest
    rw [skipValue, if_neg hdq, if_neg (by rw [htw]; exact List.cons_ne_nil d t), htw]
    rw [show d :: (t ++ c :: rest) = (d :: t) ++ c :: rest from rfl,
      List.drop_left]

/-! ## JSON round-trip: parsing the emitted object -/

theorem joinComma_length : ∀ ps : List (List Char),
    (∀ x ∈ ps, x ≠ []) → ps.length ≤ (joinComma ps).length := by
  intro ps
  induction ps with
  | nil => intro _; simp [joinComma]
  | cons x t ih =>
    intro h
    cases t with
    | nil =>
      have hx : x ≠ [] := h x (List.mem_cons_self x [])
      have : 1 ≤ x.length := List.length_pos.mpr hx
      simpa [joinComma] using this
    | cons y u =>
      have hx : x ≠ [] := h x (List.mem_cons_self x (y :: u))
      have hx1 : 1 ≤ x.length := List.length_pos.mpr hx
      have ht := ih (fun z hz => h z (List.mem_cons_of_mem x hz))
      rw [show joinComma (x :: y :: u) =
        x ++ ',' :: ' ' :: joinComma (y :: u) from rfl]
      simp only [List.length_append, List.length_cons] at ht ⊢
      omega

theorem skipValue_dump_rbrace (v : Value) (rest : List Char) :
    skipValue (dumpVal v ++ rbrace :: rest) = some (rbrace :: rest) :=
  skipValue_dumpVal v (by decide) rest

theorem skipValue_dump_comma (v : Value) (rest : List Char) :
    skipValue (dumpVal v ++ ',' :: rest) = some (',' :: rest) :=
  skipValue_dumpVal v (by decide) rest

theorem parseMembers_dump : ∀ (kvs : List (String × Value)) (fuel : Nat),
    kvs ≠ [] → kvs.length ≤ fuel →
    parseMembers fuel (joinComma (kvs.map dumpPair) ++ [rbrace]) =
      some (kvs.map (fun kv => String.mk (escChars kv.1.data))) := by
  intro kvs
  induction kvs with
  | nil => intro fuel h _; exact absurd rfl h
  | cons kv tl ih =>
    intro fuel _ hfuel
    cases fuel with
    | zero => simp at hfuel
    | succ f =>
      cases tl with
      | nil =>
        have hshape : joinComma ([kv].map dumpPair) ++ [rbrace] =
            '"' :: (escChars kv.1.data ++
              '"' :: (':' :: ' ' :: (dumpVal kv.2 ++ rbrace :: []))) := by
          simp [joinComma, dumpPair]
        rw [hshape, parseMembers.eq_def]
        simp only [scanRaw_escChars, skipValue_dump_rbrace, if_pos rfl,
          if_neg (show ¬rbrace = ',' from by decide)]
        simp
      | cons kv2 tl2 =>
        have hshape : joinComma ((kv :: kv2 :: tl2).map dumpPair) ++ [rbrace] =
            '"' :: (escChars kv.1.data ++
              '"' :: (':' :: ' ' :: (dumpVal kv.2 ++
                ',' :: (' ' :: (joinComma ((kv2 :: tl2).map dumpPair) ++ [rbrace]))))) := by
          simp [joinComma, dumpPair]
        rw [hshape, parseMembers.eq_def]
        simp only [scanRaw_escChars, skipValue_dump_comma, if_pos rfl,
          if_neg (show ¬(',' : Char) = rbrace from by decide)]
        rw [ih f (List.cons_ne_nil kv2 tl2) (by simpa using hfuel)]
        simp

theorem jsonObjKeys?_cons (c : Char) (rest : List Char) :
    jsonObjKeys? (c :: rest) =
      if c = lbrace then
        (if rest = [rbrace] then some [] else parseMembers rest.length rest)
      else none := rfl

/-- `jsonObjKeys?` recovers exactly the (escaped) keys, in order, from
the object emitted by `dumpsObj`: the emitted string is a well-formed
JSON object. -/
theorem jsonObjKeys?_dumpsObj (kvs : List (String × Value)) :
    jsonObjKeys? (dumpsObj kvs) =
      some (kvs.map (fun kv => String.mk (escChars kv.1.data))) := by
  cases kvs with
  | nil =>
    show jsonObjKeys? (lbrace :: ([] ++ [rbrace])) = some []
    rw [jsonObjKeys?.eq_def]
    simp
  | cons kv tl =>
    rw [show dumpsObj (kv :: tl) =
      lbrace :: (joinComma ((kv :: tl).map dumpPair) ++ [rbrace]) from rfl]
    have hlen : (kv :: tl).length ≤ (joinComma ((kv :: tl).map dumpPair)).length := by
      have := joinComma_length ((kv :: tl).map dumpPair)
        (by intro x hx
            simp only [List.mem_map] at hx
            obtain ⟨y, _, rfl⟩ := hx
            simp [dumpPair])
      simpa using this
    have hne : joinComma ((kv :: tl).map dumpPair) ++ [rbrace] ≠ [rbrace] := by
      intro heq
      have hlen2 := congrArg List.length heq
      simp only [List.length_append, List.length_cons, List.length_nil] at hlen2
      simp only [List.length_cons] at hlen
      omega
    rw [jsonObjKeys?_cons, if_pos rfl, if_neg hne]
    rw [parseMembers_dump (kv :: tl) _ (List.cons_ne_nil kv tl)
      (by simp only [List.length_append, List.length_cons, List.length_nil] at hlen ⊢; omega)]

/-! ## The fallback pattern versus the spec's "ticket phrase" -/

theorem litPrefix_iff : ∀ (t l : List Char),
    litPrefix t l = true ↔
      ∃ w rest, l = w ++ rest ∧ w.map Char.toLower = t.map Char.toLower := by
  intro t
  induction t with
  | nil =>
    intro l
    simp only [litPrefix, List.map_nil, true_iff]
    exact ⟨[], l, rfl, rfl⟩
  | cons c t' ih =>
    intro l
    cases l with
    | nil =>
      show (false : Bool) = true ↔ _
      simp only [Bool.false_eq_true, false_iff, List.map_cons]
      rintro ⟨w, rest, hw, hm⟩
      obtain ⟨rfl, -⟩ := List.append_eq_nil.mp hw.symm
      simp at hm
    | cons d l' =>
      rw [litPrefix]
      constructor
      · intro h
        obtain ⟨h1, h2⟩ := Bool.and_eq_true .. ▸ h
        obtain ⟨w', rest, rfl, hm⟩ := (ih l').mp h2
        refine ⟨d :: w', rest, rfl, ?_⟩
        simp only [List.map_cons, hm, List.cons.injEq, and_true]
        exact (beq_iff_eq ..).mp h1 |>.symm ▸ rfl
      · rintro ⟨w, rest, hw, hm⟩
        cases w with
        | nil => simp at hm
        | cons e w' =>
          simp only [List.cons_append, List.cons.injEq] at hw
          obtain ⟨rfl, rfl⟩ := hw
          simp only [List.map_cons, List.cons.injEq] at hm
          obtain ⟨hm1, hm2⟩ := hm
          refine Bool.and_eq_true .. ▸ ⟨?_, (ih (w' ++ rest)).mpr ⟨w', rest, rfl, hm2⟩⟩
          exact (beq_iff_eq ..).mpr hm1.symm

theorem mem_matchAtom_lit {t s : List Char} {i j : Nat} :
    j ∈ matchAtom (.lit t) s i ↔ litAt t s i = true ∧ j = i + t.length := by
  simp only [matchAtom]
  by_cases h : litAt t s i <;> simp [h]

theorem drop_split (s : List Char) (a k : Nat) :
    s.drop a = (s.drop a).take k ++ s.drop (a + k) := by
  conv_lhs => rw [← List.take_append_drop k (s.drop a)]
  rw [List.drop_drop]

/-- The capture of a greedy one-or-more class atom, as a split of the
suffix it starts at. -/
theorem plus_span {c : CClass} {s : List Char} {a b : Nat}
    (h : b ∈ matchAtom (.plus c) s a) :
    captureText s (a, b) ≠ [] ∧
    (captureText s (a, b)).all (charInClass c) = true ∧
    s.drop a = captureText s (a, b) ++ s.drop b := by
  rw [mem_matchAtom_plus] at h
  obtain ⟨h1, h2⟩ := h
  have hr := runLen_le c s a
  refine ⟨?_, ?_, ?_⟩
  · have hl : (captureText s (a, b)).length = b - a := by
      simp only [captureText, List.length_take, List.length_drop]
      omega
    intro hnil
    rw [hnil] at hl
    simp at hl
    omega
  · exact take_all_of_le_takeWhile (s.drop a) (b - a) (by unfold runLen at h2; omega)
  · have := drop_split s a (b - a)
    rwa [show a + (b - a) = b by omega] at this

/-- Soundness: any match of the fallback pattern exhibits the spec's
ticket phrase inside the text. -/
theorem fallback_sound {s : List Char} {i : Nat} {r : Nat × List (Nat × Nat)}
    (hr : r ∈ matchItems fallbackItems s i) : TicketPhrase s := by
  rw [show fallbackItems = [.atom (.lit "ticket".data), .atom (.plus .space),
    .group [.plus .digit]] from rfl] at hr
  rw [matchItems, List.mem_flatMap] at hr
  obtain ⟨j1, hj1, hr⟩ := hr
  rw [matchItems, List.mem_flatMap] at hr
  obtain ⟨j2, hj2, hr⟩ := hr
  rw [matchItems, List.mem_flatMap] at hr
  obtain ⟨j3, hj3, hr⟩ := hr
  rw [List.mem_map] at hr
  obtain ⟨q, hq, rfl⟩ := hr
  rw [matchItems, List.mem_singleton] at hq
  subst hq
  rw [mem_matchAtom_lit] at hj1
  obtain ⟨hlit, rfl⟩ := hj1
  rw [litAt, litPrefix_iff] at hlit
  obtain ⟨w, rest1, hdrop, hw⟩ := hlit
  have hwlen : w.length = 6 := by
    have := congrArg List.length hw
    simpa using this
  have hrest1 : rest1 = s.drop (i + "ticket".data.length) := by
    have := congrArg (List.drop 6) hdrop
    rw [List.drop_drop, List.drop_left' (by rw [hwlen])] at this
    rw [show ("ticket".data.length : Nat) = 6 from rfl]
    exact this.symm
  obtain ⟨hspne, hspall, hspsplit⟩ := plus_span hj2
  rw [mem_matchAtoms_single] at hj3
  obtain ⟨hdsne, hdsall, hdssplit⟩ := plus_span hj3
  refine ⟨s.take i, w,
    captureText s (i + "ticket".data.length, j2), captureText s (j2, j3),
    s.drop j3, ?_, hw, hspne, by rwa [charInClass_space] at hspall,
    hdsne, by rwa [charInClass_digit] at hdsall⟩
  conv_lhs => rw [← List.take_append_drop i s]
  rw [hdrop, hrest1, hspsplit, hdssplit]
  simp

/-- Completeness: if the text contains the spec's ticket phrase, the
fallback pattern finds a match. -/
theorem fallback_complete {s : List Char} (h : TicketPhrase s) :
    (searchRE fallbackItems s).isSome := by
  obtain ⟨pre, w, sp, ds, post, rfl, hw, hspne, hsp, hdsne, hds⟩ := h
  obtain ⟨d, ds', rfl⟩ : ∃ d ds', ds = d :: ds' := by
    cases ds with
    | nil => exact absurd rfl hdsne
    | cons d t => exact ⟨d, t, rfl⟩
  have hwlen : w.length = 6 := by
    have := congrArg List.length hw
    simpa using this
  have hd : isDigitChar d = true := by
    rw [List.all_cons] at hds
    exact (Bool.and_eq_true .. ▸ hds).1
  have hdrop1 : (pre ++ w ++ sp ++ (d :: ds') ++ post).drop pre.length =
      w ++ (sp ++ ((d :: ds') ++ post)) := by
    rw [show pre ++ w ++ sp ++ (d :: ds') ++ post =
      pre ++ (w ++ (sp ++ ((d :: ds') ++ post))) by simp [List.append_assoc]]
    exact List.drop_left pre _
  have hlit : litAt "ticket".data (pre ++ w ++ sp ++ (d :: ds') ++ post)
      pre.length = true := by
    rw [litAt, hdrop1]
    exact (litPrefix_iff _ _).mpr ⟨w, sp ++ ((d :: ds') ++ post), rfl, hw⟩
  have hm1 : (pre.length + 6) ∈
      matchAtom (.lit "ticket".data) (pre ++ w ++ sp ++ (d :: ds') ++ post)
        pre.length :=
    mem_matchAtom_lit.mpr ⟨hlit, rfl⟩
  have hdrop2 : (pre ++ w ++ sp ++ (d :: ds') ++ post).drop (pre.length + 6) =
      sp ++ ((d :: ds') ++ post) := by
    have h6 := congrArg (List.drop 6) hdrop1
    rw [List.drop_drop, List.drop_left' hwlen] at h6
    exact h6
  have hsplit : (pre ++ w ++ sp ++ (d :: ds') ++ post).drop (pre.length + 6) =
      sp ++ d :: (ds' ++ post) := by
    rw [hdrop2]; simp
  have hspall : sp.all (charInClass .space) = true := by
    rw [charInClass_space]; exact hsp
  have hrun : runLen .space (pre ++ w ++ sp ++ (d :: ds') ++ post)
      (pre.length + 6) = sp.length :=
    runLen_of_split hsplit hspall
      (by rw [charInClass_space]; exact not_space_of_digit hd)
  have hm2 : (pre.length + 6 + sp.length) ∈
      matchAtom (.plus .space) (pre ++ w ++ sp ++ (d :: ds') ++ post)
        (pre.length + 6) := by
    apply mem_matchAtom_plus.mpr
    have := List.length_pos.mpr hspne
    constructor
    · omega
    · rw [hrun]
  have hdrop3 : (pre ++ w ++ sp ++ (d :: ds') ++ post).drop
      (pre.length + 6 + sp.length) = (d :: ds') ++ post := by
    have hs := congrArg (List.drop sp.length) hdrop2
    rw [List.drop_drop, List.drop_left] at hs
    exact hs
  have hpref : (pre ++ w ++ sp ++ (d :: ds') ++ post).drop
      (pre.length + 6 + sp.length) = [d] ++ (ds' ++ post) := by
    rw [hdrop3]; simp
  have hdall : ([d] : List Char).all (charInClass .digit) = true := by
    rw [charInClass_digit]; simp [hd]
  have hrund : 1 ≤ runLen .digit (pre ++ w ++ sp ++ (d :: ds') ++ post)
      (pre.length + 6 + sp.length) := by
    have := runLen_ge_of_prefix hpref hdall
    simpa using this
  have hm3 : (pre.length + 6 + sp.length +
      runLen .digit (pre ++ w ++ sp ++ (d :: ds') ++ post)
        (pre.length + 6 + sp.length)) ∈
      matchAtom (.plus .digit) (pre ++ w ++ sp ++ (d :: ds') ++ post)
        (pre.length + 6 + sp.length) :=
    mem_matchAtom_plus.mpr ⟨by omega, le_refl _⟩
  apply searchRE_isSome_of (i := pre.length)
  · simp only [List.length_append]
    omega
  · apply List.ne_nil_of_mem (a := (pre.length + 6 + sp.length +
      runLen .digit (pre ++ w ++ sp ++ (d :: ds') ++ post)
        (pre.length + 6 + sp.length),
      [(pre.length + 6 + sp.length,
        pre.length + 6 + sp.length +
          runLen .digit (pre ++ w ++ sp ++ (d :: ds') ++ post)
            (pre.length + 6 + sp.length))]))
    rw [show fallbackItems = [.atom (.lit "ticket".data), .atom (.plus .space),
      .group [.plus .digit]] from rfl]
    rw [matchItems]
    apply List.mem_flatMap.mpr ⟨pre.length + 6, hm1, ?_⟩
    rw [matchItems]
    apply List.mem_flatMap.mpr ⟨pre.length + 6 + sp.length, hm2, ?_⟩
    rw [matchItems]
    apply List.mem_flatMap.mpr ⟨_, mem_matchAtoms_single.mpr hm3, ?_⟩
    simp [matchItems]

/-- The fallback pattern matches exactly the texts containing the
spec's ticket phrase. -/
theorem fallback_iff (s : List Char) :
    (searchRE fallbackItems s).isSome ↔ TicketPhrase s := by
  constructor
  · intro h
    obtain ⟨caps, hc⟩ := Option.isSome_iff_exists.mp h
    obtain ⟨i, r, hr, -⟩ := searchRE_eq_some_elim hc
    exact fallback_sound hr
  · exact fallback_complete

/-! ## Remaining helper lemmas for the claims -/

theorem execute_some (qs : String) :
    execute (some qs) =
      if qs = "" then .error (renderError .emptyInput)
      else
        match routeCore (pyStrip qs.data) with
        | .ok (n, kvs) => .ok (build_response n kvs)
        | .error e => .error (renderError e) := rfl

theorem dropWhile_eq_nil_of_all {α : Type} {p : α → Bool} {l : List α}
    (h : l.all p = true) : l.dropWhile p = [] := by
  induction l with
  | nil => rfl
  | cons a t ih =>
    rw [List.all_cons] at h
    obtain ⟨h1, h2⟩ := Bool.and_eq_true .. ▸ h
    rw [List.dropWhile_cons_of_pos h1]
    exact ih h2

theorem pyStrip_all_space {l : List Char} (h : l.all isSpaceChar = true) :
    pyStrip l = [] := by
  unfold pyStrip
  rw [dropWhile_eq_nil_of_all h]
  rfl

theorem firstRuleMatch_eq_none {s : List Char} {rs : List Rule}
    (h : firstRuleMatch rs s = none) : ∀ R ∈ rs, searchRE R.pattern s = none := by
  induction rs with
  | nil => intro R hR; simp at hR
  | cons Q qs ih =>
    intro R hR
    rw [firstRuleMatch] at h
    cases hq : searchRE Q.pattern s with
    | some caps => rw [hq] at h; exact Option.noConfusion h
    | none =>
      rw [hq] at h
      rcases List.mem_cons.mp hR with rfl | hm
      · exact hq
      · exact ih h R hm

theorem detail_ne_invalid {a key : String} (hhead : a.data.head? ≠ some 'I') :
    a ≠ "Invalid integer for " ++ key := by
  intro h
  apply hhead
  rw [h]
  rfl

/-! ## The claims -/

/-- C1: for every query string that some rule matches, `route` uses the
first matching rule in declaration order and returns a descriptor whose
`function_name` is that rule's name and whose arguments carry exactly
that rule's parameter names, in the rule's declared order. -/
theorem c1_first_matching_rule (q : String) (i : Nat) (R : Rule)
    (hi : PATTERNS[i]? = some R)
    (hmatch : (searchRE R.pattern (pyStrip q.data)).isSome = true)
    (hfirst : ∀ j S, j < i → PATTERNS[j]? = some S →
      searchRE S.pattern (pyStrip q.data) = none) :
    ∃ kvs, execute (some q) = .ok (build_response R.name kvs) ∧
      kvs.map Prod.fst = R.arg_keys := by
  obtain ⟨caps, hcaps⟩ := Option.isSome_iff_exists.mp hmatch
  have hq : q ≠ "" := by
    rintro rfl
    have hR : R ∈ PATTERNS := List.getElem?_mem hi
    have hnone : searchRE R.pattern (pyStrip "".data) = none := by
      simp only [PATTERNS, List.mem_cons, List.not_mem_nil, or_false] at hR
      rcases hR with rfl | rfl | rfl | rfl | rfl <;> decide
    rw [hnone] at hcaps
    exact Option.noConfusion hcaps
  have hfm := firstRuleMatch_of_first PATTERNS i R caps hi hcaps hfirst
  obtain ⟨kvs, hok, hkeys⟩ := routeCore_match hfm
  refine ⟨kvs, ?_, hkeys⟩
  rw [execute_some, if_neg hq]
  simp only [hok]

/-- C1 witness: spec scenario 1 is routed by the first rule. -/
theorem c1_witness :
    ∃ kvs, execute (some "What is the status of ticket 83742?") =
      .ok (build_response "get_ticket_status" kvs) ∧
      kvs.map Prod.fst = ["ticket_id"] :=
  c1_first_matching_rule "What is the status of ticket 83742?" 0 ticketRule
    rfl (by decide) (fun j S hj _ => absurd hj (Nat.not_lt_zero j))

/-- C2 counterexample: a whitespace-only (but non-empty) `q` is NOT
answered with the `EmptyInput` error; the handler's `if not q:` test
lets it through and it ends in `NoRuleMatched` instead. -/
theorem c2_counterexample :
    execute (some " ") ≠ .error ⟨400, "Missing query parameter q"⟩ ∧
    execute (some " ") = .error ⟨400, "Could not map query to any pre-defined function. Make sure the question follows one of the templated formats."⟩ := by
  constructor
  · decide
  · decide

/-- C2 (amended): a missing or empty `q` yields the `EmptyInput` error
(400, "Missing query parameter q"); a whitespace-only non-empty `q`
never produces a match but yields the `NoRuleMatched` error instead. -/
theorem c2_empty_whitespace (q : Option String) :
    ((q = none ∨ q = some "") →
      execute q = .error ⟨400, "Missing query parameter q"⟩) ∧
    (∀ s, q = some s → s ≠ "" → s.data.all isSpaceChar = true →
      execute q = .error ⟨400, "Could not map query to any pre-defined function. Make sure the question follows one of the templated formats."⟩) := by
  constructor
  · rintro (rfl | rfl) <;> rfl
  · rintro s rfl hne hsp
    rw [execute_some, if_neg hne, pyStrip_all_space hsp]
    simp only [show routeCore [] = Except.error RouteError.noRuleMatched from by decide]
    rfl

/-- C2 witness: the amended statement applies to the whitespace-only
input `" "`. -/
theorem c2_witness :
    execute (some " ") = .error ⟨400, "Could not map query to any pre-defined function. Make sure the question follows one of the templated formats."⟩ :=
  (c2_empty_whitespace (some " ")).2 " " rfl (by decide) (by decide)

/-- C3: the fallback fires exactly when no primary rule matches the
trimmed query and the trimmed query contains the literal text "ticket"
followed by whitespace and one or more digits (case-insensitively); it
then produces the `get_ticket_status` descriptor with the single
argument `ticket_id` bound to the parsed integer. -/
theorem c3_fallback_characterization (q : String) :
    (((∀ R ∈ PATTERNS, searchRE R.pattern (pyStrip q.data) = none) ∧
        (searchRE fallbackItems (pyStrip q.data)).isSome = true) ↔
      ((∀ R ∈ PATTERNS, searchRE R.pattern (pyStrip q.data) = none) ∧
        TicketPhrase (pyStrip q.data))) ∧
    ((∀ R ∈ PATTERNS, searchRE R.pattern (pyStrip q.data) = none) →
      (searchRE fallbackItems (pyStrip q.data)).isSome = true →
      ∃ n : Int, routeCore (pyStrip q.data) =
        .ok ("get_ticket_status", [("ticket_id", Value.int n)])) := by
  constructor
  · exact and_congr_right (fun _ => fallback_iff _)
  · intro h1 h2
    obtain ⟨caps, hc⟩ := Option.isSome_iff_exists.mp h2
    exact routeCore_fallback (firstRuleMatch_none PATTERNS h1) hc

/-- C3 witness: spec scenario 6, `"ticket 999 please"`. -/
theorem c3_witness :
    ∃ n : Int, routeCore (pyStrip "ticket 999 please".data) =
      .ok ("get_ticket_status", [("ticket_id", Value.int n)]) :=
  (c3_fallback_characterization "ticket 999 please").2 (by decide) (by decide)

/-- C4: the meeting-scheduling example routes to `schedule_meeting`
with the room capture running to end-of-string, trailing punctuation
included. -/
theorem c4_meeting_example :
    execute (some "Schedule a meeting on 2025-02-15 at 14:00 in Room A.") =
      .ok ⟨"schedule_meeting",
        "\x7b\"date\": \"2025-02-15\", \"time\": \"14:00\", \"meeting_room\": \"Room A.\"\x7d"⟩ := by
  decide

/-- C5: every successful result's `arguments` field is a string holding
a valid JSON object whose keys are exactly the matched rule's parameter
names in declared order, and the serializer leaves non-ASCII characters
of string values literal (unescaped). -/
theorem c5_arguments_serialization (q : String) (d : Resp)
    (h : execute (some q) = .ok d) :
    (∃ R kvs, R ∈ PATTERNS ∧ d.name = R.name ∧
      d.arguments.data = dumpsObj kvs ∧ kvs.map Prod.fst = R.arg_keys ∧
      jsonObjKeys? d.arguments.data = some R.arg_keys) ∧
    (∀ c : Char, 128 ≤ c.toNat → escChar c = [c]) := by
  constructor
  · by_cases hq : q = ""
    · subst hq
      exact Except.noConfusion h
    · rw [execute_some, if_neg hq] at h
      rcases routeCore_cases (pyStrip q.data) with ⟨R, kvs, hmem, hok, hkeys⟩ | herr
      · simp only [hok] at h
        have hd : d = build_response R.name kvs := (Except.ok.inj h).symm
        subst hd
        have hesc : kvs.map (fun kv => String.mk (escChars kv.1.data)) =
            R.arg_keys := by
          have hmm : kvs.map (fun kv => String.mk (escChars kv.1.data)) =
              (kvs.map Prod.fst).map (fun k => String.mk (escChars k.data)) := by
            rw [List.map_map]
            rfl
          rw [hmm, hkeys]
          simp only [PATTERNS, List.mem_cons, List.not_mem_nil, or_false] at hmem
          rcases hmem with rfl | rfl | rfl | rfl | rfl <;> decide
        refine ⟨R, kvs, hmem, rfl, rfl, hkeys, ?_⟩
        show jsonObjKeys? (dumpsObj kvs) = some R.arg_keys
        rw [jsonObjKeys?_dumpsObj, hesc]
      · simp only [herr] at h
        exact Except.noConfusion h
  · intro c hc
    have h1 : c ≠ '\\' := by
      intro he; rw [he] at hc; exact absurd hc (by decide)
    have h2 : c ≠ '"' := by
      intro he; rw [he] at hc; exact absurd hc (by decide)
    unfold escChar
    rw [if_neg h1, if_neg h2, if_neg (by omega)]

/-- C5 witness: spec scenario 1's response is a valid JSON object with
key `ticket_id`. -/
theorem c5_witness :
    (∃ R kvs, R ∈ PATTERNS ∧
      (Resp.mk "get_ticket_status" "\x7b\"ticket_id\": 83742\x7d").name = R.name ∧
      (Resp.mk "get_ticket_status" "\x7b\"ticket_id\": 83742\x7d").arguments.data = dumpsObj kvs ∧
      kvs.map Prod.fst = R.arg_keys ∧
      jsonObjKeys? (Resp.mk "get_ticket_status" "\x7b\"ticket_id\": 83742\x7d").arguments.data =
        some R.arg_keys) ∧
    (∀ c : Char, 128 ≤ c.toNat → escChar c = [c]) :=
  c5_arguments_serialization "What is the status of ticket 83742?"
    ⟨"get_ticket_status", "\x7b\"ticket_id\": 83742\x7d"⟩ (by decide)

/-- C6: an Integer-kind coercion of a captured base-10 digit sequence
stores exactly the integer that the digit sequence denotes. -/
theorem c6_integer_roundtrip (key : String) (ds : List Char)
    (h1 : ds ≠ []) (h2 : ds.all isDigitChar = true) :
    coerceOne .int key ds = .ok (.int ((specDecimal ds : Nat) : Int)) :=
  coerceOne_int_digits h1 h2

/-- C6 witness: the capture `"83742"` coerces to the integer 83742. -/
theorem c6_witness :
    coerceOne .int "ticket_id" "83742".data = .ok (.int 83742) :=
  (c6_integer_roundtrip "ticket_id" "83742".data (by decide) (by decide)).trans
    (by decide)

/-- C7: when the trimmed query is non-empty, no primary rule matches it
and the fallback fails too, the endpoint answers 400 with the
`NoRuleMatched` detail text and no descriptor is produced. -/
theorem c7_no_rule_matched (q : String) (hne : pyStrip q.data ≠ [])
    (h1 : ∀ R ∈ PATTERNS, searchRE R.pattern (pyStrip q.data) = none)
    (h2 : searchRE fallbackItems (pyStrip q.data) = none) :
    execute (some q) = .error ⟨400, "Could not map query to any pre-defined function. Make sure the question follows one of the templated formats."⟩ := by
  have hq : q ≠ "" := by
    rintro rfl
    exact hne rfl
  have hrc := routeCore_noMatch (firstRuleMatch_none PATTERNS h1) h2
  rw [execute_some, if_neg hq]
  simp only [hrc]
  rfl

/-- C7 witness: spec scenario 7, `"hello world"`. -/
theorem c7_witness :
    execute (some "hello world") = .error ⟨400, "Could not map query to any pre-defined function. Make sure the question follows one of the templated formats."⟩ :=
  c7_no_rule_matched "hello world" (by decide) (by decide) (by decide)

/-- C8: routing is a deterministic pure function of the query and the
static rule table: equal queries yield identical results (the
embedding's `execute` is a total function with no state). -/
theorem c8_deterministic (q1 q2 : Option String) (h : q1 = q2) :
    execute q1 = execute q2 := congrArg execute h

/-- C8 witness: two invocations on the same query agree. -/
theorem c8_witness :
    execute (some "hello world") = execute (some "hello world") :=
  c8_deterministic (some "hello world") (some "hello world") rfl

/-- C9: the `InternalPatternError` branch (500, group count mismatch)
is unreachable: each rule's pattern has exactly as many capture groups
as declared parameters, so no input can produce this error. -/
theorem c9_group_mismatch_unreachable (q : Option String) :
    execute q ≠ .error ⟨500, "Parsing error: group count mismatch"⟩ := by
  intro h
  cases q with
  | none =>
    have h' := Except.error.inj h
    exact absurd (congrArg HttpError.status h') (by decide)
  | some qs =>
    by_cases hq : qs = ""
    · subst hq
      have h' := Except.error.inj h
      exact absurd (congrArg HttpError.status h') (by decide)
    · rw [execute_some, if_neg hq] at h
      rcases routeCore_cases (pyStrip qs.data) with ⟨R, kvs, _, hok, _⟩ | herr
      · simp only [hok] at h
        exact Except.noConfusion h
      · simp only [herr] at h
        have h' := Except.error.inj h
        exact absurd (congrArg HttpError.status h') (by decide)

/-- C9 witness: the unreachability applies to a concrete query. -/
theorem c9_witness :
    execute (some "hello world") ≠
      .error ⟨500, "Parsing error: group count mismatch"⟩ :=
  c9_group_mismatch_unreachable (some "hello world")

/-- C10: the `InvalidArgument` branch (400, "Invalid integer for ...")
is unreachable: Integer-kind groups match only digit runs, and parsing
a digit run never fails. -/
theorem c10_invalid_integer_unreachable (q : Option String) (key : String) :
    execute q ≠ .error ⟨400, "Invalid integer for " ++ key⟩ := by
  intro h
  have hM : ("Missing query parameter q" : String) ≠
      "Invalid integer for " ++ key := detail_ne_invalid (by decide)
  have hC : ("Could not map query to any pre-defined function. Make sure the question follows one of the templated formats." : String) ≠
      "Invalid integer for " ++ key := detail_ne_invalid (by decide)
  cases q with
  | none =>
    have h' := Except.error.inj h
    exact hM (congrArg HttpError.detail h')
  | some qs =>
    by_cases hq : qs = ""
    · subst hq
      have h' := Except.error.inj h
      exact hM (congrArg HttpError.detail h')
    · rw [execute_some, if_neg hq] at h
      rcases routeCore_cases (pyStrip qs.data) with ⟨R, kvs, _, hok, _⟩ | herr
      · simp only [hok] at h
        exact Except.noConfusion h
      · simp only [herr] at h
        have h' := Except.error.inj h
        exact hC (congrArg HttpError.detail h')

/-- C10 witness: the unreachability applies to a concrete query and
parameter name. -/
theorem c10_witness :
    execute (some "hello world") ≠
      .error ⟨400, "Invalid integer for " ++ "ticket_id"⟩ :=
  c10_invalid_integer_unreachable (some "hello world") "ticket_id"

end TechNova

-- Validation of the embedding against the spec's concrete scenarios
-- (section 8 of the spec) and the degenerate inputs.
example : TechNova.searchRE
    [.atom (.lit "ticket".data), .atom (.plus .space), .group [.plus .digit]]
    "see ticket  42x".data = some [(12, 14)] := by decide
example : TechNova.searchRE
    [.wb, .atom (.lit "status of ticket".data), .atom (.plus .space),
     .group [.plus .digit], .wb]
    "What is the status of ticket 83742?".data = some [(29, 34)] := by decide

open TechNova in
example : execute (some "What is the status of ticket 83742?") =
    .ok ⟨"get_ticket_status", "\x7b\"ticket_id\": 83742\x7d"⟩ := by decide
open TechNova in
example : execute (some "Schedule a meeting on 2025-02-15 at 14:00 in Room A.") =
    .ok ⟨"schedule_meeting",
      "\x7b\"date\": \"2025-02-15\", \"time\": \"14:00\", \"meeting_room\": \"Room A.\"\x7d"⟩ := by
  decide
open TechNova in
example : execute (some "Show my expense balance for employee 10056.") =
    .ok ⟨"get_expense_balance", "\x7b\"employee_id\": 10056\x7d"⟩ := by decide
open TechNova in
example : execute (some "Calculate performance bonus for employee 10056 for 2025.") =
    .ok ⟨"calculate_performance_bonus",
      "\x7b\"employee_id\": 10056, \"current_year\": 2025\x7d"⟩ := by decide
open TechNova in
example : execute (some "Report office issue 45321 for the Facilities department.") =
    .ok ⟨"report_office_issue",
      "\x7b\"issue_code\": 45321, \"department\": \"Facilities\"\x7d"⟩ := by decide
open TechNova in
example : execute (some "ticket 999 please") =
    .ok ⟨"get_ticket_status", "\x7b\"ticket_id\": 999\x7d"⟩ := by decide
open TechNova in
example : execute (some "hello world") =
    .error ⟨400, "Could not map query to any pre-defined function. Make sure the question follows one of the templated formats."⟩ := by decide
open TechNova in
example : execute (some " ") =
    .error ⟨400, "Could not map query to any pre-defined function. Make sure the question follows one of the templated formats."⟩ := by decide
open TechNova in
example : execute (some "") = .error ⟨400, "Missing query parameter q"⟩ := by decide
open TechNova in
example : execute none = .error ⟨400, "Missing query parameter q"⟩ := by decide
